import Mathlib

/-!
Verification development for the cherrytree client-side router
(`src/lib/router.js`).  The router core is embedded shallowly: the route
tree compiler (`map`), the matcher lookup (`match`), the dispatcher
(`dispatch`) and `isActive` are translated from `src/lib/router.js`.
Helper modules that the repository imports but that are not under `src/`
(`dash.js`, `path.js`, `transition.js`, `constants.js`, `qs.js`) are
modelled from the specification and carry a `Modelled from the spec:`
doc comment.

JavaScript plain objects that map string keys to string values (params,
query, the duplicate-path registry) are represented as association lists
`List (String × String)` with first-hit lookup; `undefined` is `none`.
-/

namespace Cherry

/-- First-hit lookup in an association list; `none` models a missing key
(JavaScript `undefined`). -/
def lookupKey : List (String × String) → String → Option String
  | [], _ => none
  | p :: rest, k => if p.1 == k then some p.2 else lookupKey rest k

/-- JavaScript `obj[k] = v`: overwrite the existing entry in place, or append
a new one (insertion order of first assignment is preserved, matching
`Object.keys` enumeration order for string keys). -/
def setKey : List (String × String) → String → String → List (String × String)
  | [], k, v => [(k, v)]
  | (k0, v0) :: rest, k, v =>
      if k0 == k then (k, v) :: rest else (k0, v0) :: setKey rest k v

/-- JavaScript truthiness of a possibly-undefined string: `undefined` and the
empty string are falsy. -/
def truthy : Option String → Bool
  | none => false
  | some s => s != ""

/-- Modelled from the spec: `pick` from `dash.js` (not under `src/`) keeps,
for each requested key that the source object has, that key with its value. -/
def pick (m : List (String × String)) (keys : List String) : List (String × String) :=
  keys.filterMap (fun k => (lookupKey m k).map (fun v => (k, v)))

/-- One-sided map containment used to express value equality of two string
maps: every key of `a` has the same lookup in `b` as in `a`. -/
def qsubset (a b : List (String × String)) : Bool :=
  (a.map Prod.fst).all (fun k => lookupKey a k == lookupKey b k)

/-- Modelled from the spec: `isEqual` from `dash.js` (not under `src/`) —
value equality of two query/params maps (same keys, strictly equal values). -/
def isEqualQ (a b : List (String × String)) : Bool :=
  qsubset a b && qsubset b a

/-- JavaScript `maybeS === s` where `maybeS` may be `undefined`:
`undefined` is never strictly equal to a string. -/
def optStrEq : Option String → String → Bool
  | none, _ => false
  | some a, b => a == b

/-- JavaScript `isEqual(maybeQ, q)` where `maybeQ` may be `undefined`:
`undefined` is not value-equal to an object. -/
def isEqualOptQ : Option (List (String × String)) → List (String × String) → Bool
  | none, _ => false
  | some a, b => isEqualQ a b

/-! ## Path helpers (`path.js` and `qs.js` are not under `src/`)

String splitting is implemented structurally over the character list so that
every definition evaluates by kernel reduction. -/

/-- Split a character list at every occurrence of the separator character
(the pieces do not contain the separator; `n` separators yield `n + 1`
pieces, as JavaScript `String.prototype.split` does). -/
def splitChar (c : Char) : List Char → List (List Char)
  | [] => [[]]
  | x :: xs =>
      match splitChar c xs with
      | [] => [[]]
      | cur :: rest =>
          if x == c then [] :: cur :: rest else (x :: cur) :: rest

/-- `s.split(c)` for a one-character separator. -/
def splitOnChar (c : Char) (s : String) : List String :=
  (splitChar c s.data).map (fun cs => (⟨cs⟩ : String))

/-- JavaScript `s[0] === c`: the first character, if any, is `c`. -/
def headIsChar (c : Char) (s : String) : Bool :=
  match s.data with
  | [] => false
  | x :: _ => x == c

/-- The string without its first character. -/
def strTail (s : String) : String := ⟨s.data.drop 1⟩

/-- Split a path into its non-empty `/`-separated segments. -/
def splitSegs (s : String) : List String :=
  (splitOnChar '/' s).filter (fun seg => seg != "")

/-- Modelled from the spec: segment-wise pattern matching of `path.js`
(not under `src/`) — a `:`-prefixed pattern segment captures the (non-empty)
pathname segment under the capture name, any other pattern segment must match
literally, and the segment counts must agree exactly (§4.2). -/
def segMatch : List String → List String → Option (List (String × String))
  | [], [] => some []
  | pseg :: prest, sseg :: srest =>
      if headIsChar ':' pseg then
        (segMatch prest srest).map (fun ps => (strTail pseg, sseg) :: ps)
      else if pseg == sseg then segMatch prest srest
      else none
  | _, _ => none

/-- Modelled from the spec: `extractParams(pattern, pathname)` of `path.js`
(not under `src/`) — the params map when the pattern matches the whole
pathname, `none` otherwise (§4.2). -/
def extractParams (pattern pathname : String) : Option (List (String × String)) :=
  segMatch (splitSegs pattern) (splitSegs pathname)

/-- Modelled from the spec: `extractParamNames(pattern)` of `path.js`
(not under `src/`) — the ordered capture names declared in a pattern (§4.2). -/
def extractParamNames (pattern : String) : List String :=
  (splitSegs pattern).filterMap
    (fun seg => if headIsChar ':' seg then some (strTail seg) else none)

/-- Modelled from the spec: `withoutQuery(path)` of `path.js`
(not under `src/`) — the part of the path before the first `?`. -/
def withoutQuery (path : String) : String :=
  (splitOnChar '?' path).headD path

/-- Join strings with a separator (used to restore `=` inside query values). -/
def joinWith (sep : String) : List String → String
  | [] => ""
  | s :: rest => rest.foldl (fun acc t => acc ++ sep ++ t) s

/-- Modelled from the spec: the pluggable query codec's `decode`
(`qs.js`, not under `src/`) — parse `k=v&k2=v2` into a string map. -/
def decodeQuery (s : String) : List (String × String) :=
  (splitOnChar '&' s).filterMap (fun kv =>
    if kv == "" then none
    else match splitOnChar '=' kv with
      | [] => none
      | [k] => some (k, "")
      | k :: rest => some (k, joinWith "=" rest))

/-- Modelled from the spec: `extractQuery(qs, path)` of `path.js`
(not under `src/`) — decode the query-string part of the path if there is a
non-empty one, `none` otherwise. -/
def extractQuery (path : String) : Option (List (String × String)) :=
  match (splitOnChar '?' path).get? 1 with
  | none => none
  | some q => if q == "" then none else some (decodeQuery q)

/-- JavaScript `str.replace(/\/$/, '')`: strip a single trailing slash. -/
def stripTrailing (s : String) : String :=
  match s.data.getLast? with
  | some c => if c == '/' then ⟨s.data.dropLast⟩ else s
  | none => s

/-- `path = (path || '').replace(/\/$/, '') || '/'` from
`Cherrytree.prototype.match` (router.js line 295): trim one trailing slash
and normalize the empty result to `/`. -/
def cleanPath (path : String) : String :=
  let p := stripTrailing path
  if p == "" then "/" else p

/-! ## Route tree and the `map()` compiler (router.js lines 49–126) -/

/-- The recognized route option (`options.abstract`, router.js line 76). -/
structure RouteOptions where
  abstract : Bool
deriving DecidableEq, Repr

mutual

/-- A node of the route tree produced by the route DSL: `name`, `path`,
`options` and the list of child routes (a `RouteList`, the sibling list —
mutual with `RouteNode` so that all functions over the tree are structural). -/
inductive RouteNode : Type where
  | mk (name : String) (path : String) (options : RouteOptions)
       (routes : RouteList)

/-- A sibling list of route nodes. -/
inductive RouteList : Type where
  | nil
  | cons (head : RouteNode) (tail : RouteList)

end

def RouteNode.name : RouteNode → String
  | .mk n _ _ _ => n

def RouteNode.path : RouteNode → String
  | .mk _ p _ _ => p

def RouteNode.options : RouteNode → RouteOptions
  | .mk _ _ o _ => o

def RouteNode.routes : RouteNode → RouteList
  | .mk _ _ _ rs => rs

/-- Build a sibling list from an ordinary list (declaration convenience). -/
def RouteList.ofList : List RouteNode → RouteList
  | [] => RouteList.nil
  | r :: rs => RouteList.cons r (RouteList.ofList rs)

/-- `eachBranch` (router.js lines 115–123): depth-first traversal that emits,
for every node, the branch of ancestors-plus-self, then recurses into the
children with the extended accumulator. -/
def branches : RouteList → List RouteNode → List (List RouteNode)
  | RouteList.nil, _ => []
  | RouteList.cons (RouteNode.mk n p o rs) rest, memo =>
      (memo ++ [RouteNode.mk n p o rs]) ::
        (branches rs (memo ++ [RouteNode.mk n p o rs]) ++ branches rest memo)

/-- `routes[routes.length - 1]` of a branch (router.js line 74); branches
emitted by `branches` are always non-empty, the default is never used there. -/
def leafOf (b : List RouteNode) : RouteNode :=
  b.getLast?.getD (RouteNode.mk "" "" ⟨false⟩ RouteList.nil)

/-- The per-branch path fold of `map` (router.js lines 64–72): a segment with
a leading `/` resets the accumulator, otherwise it is concatenated with a
single `/`; one trailing slash is stripped after each step; an empty final
result becomes `/`. -/
def branchPath (b : List RouteNode) : String :=
  let folded := b.foldl
    (fun memo r =>
      stripTrailing (if headIsChar '/' r.path then r.path
                     else memo ++ "/" ++ r.path))
    ""
  if folded == "" then "/" else folded

/-- A compiled matcher (router.js lines 82–86): the branch (ancestors first),
the leaf's name, and the normalized full path. -/
structure Matcher where
  routes : List RouteNode
  name : String
  path : String

/-- The mutable state of one `map()` run: the matcher list, the duplicate
registry `dupes` (path → name) and the abstract registry `abstracts`
(path → name). -/
structure MapState where
  matchers : List Matcher
  dupes : List (String × String)
  abstracts : List (String × String)

/-- The duplicate-path error message thrown at router.js lines 90–91. -/
def dupeMsg (n1 n2 p : String) : String :=
  "Routes " ++ n1 ++ " and " ++ n2 ++ " have the same url path \x27" ++ p ++ "\x27"

/-- One iteration of the branch callback of `map` (router.js lines 62–94):
record an abstract leaf in the abstract registry (overwriting a previous
entry at the same path), otherwise push a matcher and throw if the duplicate
registry holds a truthy entry for the path. -/
def mapStep (s : MapState) (b : List RouteNode) : Except String MapState :=
  let path := branchPath b
  match b.getLast? with
  | none => Except.error "TypeError: branch has no routes"
  | some lastRoute =>
      if lastRoute.options.abstract then
        Except.ok { s with abstracts := setKey s.abstracts path lastRoute.name }
      else
        let s1 : MapState :=
          { s with matchers := s.matchers ++ [⟨b, lastRoute.name, path⟩] }
        match lookupKey s1.dupes path with
        | some prev =>
            if prev == "" then
              Except.ok { s1 with dupes := setKey s1.dupes path lastRoute.name }
            else Except.error (dupeMsg prev lastRoute.name path)
        | none =>
            Except.ok { s1 with dupes := setKey s1.dupes path lastRoute.name }

/-- The branch loop of `map` over all branches, stopping at the first throw. -/
def mapLoop : MapState → List (List RouteNode) → Except String MapState
  | s, [] => Except.ok s
  | s, b :: bs =>
      match mapStep s b with
      | Except.error e => Except.error e
      | Except.ok s1 => mapLoop s1 bs

/-- The abstract-alias phase of `map` (router.js lines 96–113): for each
abstract registry entry whose path has a truthy duplicate-registry entry,
append an alias matcher sharing the routes of the first matcher at that path
(the search scans the matcher list as already extended by earlier aliases). -/
def aliasLoop (matchers : List Matcher) (dupes : List (String × String)) :
    List (String × String) → Except String (List Matcher)
  | [] => Except.ok matchers
  | (path, name) :: rest =>
      if truthy (lookupKey dupes path) then
        match matchers.find? (fun m => m.path == path) with
        | some m => aliasLoop (matchers ++ [⟨m.routes, name, path⟩]) dupes rest
        | none => Except.error "TypeError: matcher is undefined"
      else aliasLoop matchers dupes rest

/-- The empty state at the start of `map` (router.js lines 55–60). -/
def initMapState : MapState := ⟨[], [], []⟩

/-- `Cherrytree.prototype.map` (router.js lines 49–126) restricted to its
output: compile a route tree into the matcher list, or throw the
duplicate-path error. -/
def mapRoutes (tree : RouteList) : Except String (List Matcher) :=
  match mapLoop initMapState (branches tree []) with
  | Except.error e => Except.error e
  | Except.ok s => aliasLoop s.matchers s.dupes s.abstracts

/-! ## Spec-side descriptions of `map()`, used for the refinement claims -/

/-- Spec wording of C4: fold the branch's own segment paths left-to-right; a
segment starting with `/` replaces the accumulated path entirely, any other
segment is appended with a single `/` separator, a trailing `/` is stripped
after each fold step, and a final empty result becomes `/`. -/
def specFoldStep (acc seg : String) : String :=
  stripTrailing (if headIsChar '/' seg then seg else acc ++ "/" ++ seg)

/-- Spec wording of C4, whole-branch version (over the segment path list). -/
def specFoldC4 (paths : List String) : String :=
  let folded := paths.foldl specFoldStep ""
  if folded == "" then "/" else folded

/-- The branches whose leaf is not abstract, in traversal order. -/
def concreteBranches (bs : List (List RouteNode)) : List (List RouteNode) :=
  bs.filter (fun b => !(leafOf b).options.abstract)

/-- The matcher a concrete branch registers. -/
def branchMatcher (b : List RouteNode) : Matcher :=
  ⟨b, (leafOf b).name, branchPath b⟩

/-- The concrete matchers of a branch list, in traversal order. -/
def concreteMatchersOf (bs : List (List RouteNode)) : List Matcher :=
  (concreteBranches bs).map branchMatcher

/-- The normalized paths of the concrete (non-abstract) branches of a tree. -/
def concretePaths (tree : RouteList) : List String :=
  (concreteBranches (branches tree [])).map branchPath

/-- The duplicate registry a successful traversal builds: path of each
concrete branch mapped to its leaf name, later branches at the same path
overwriting earlier ones. -/
def dupesOf (bs : List (List RouteNode)) : List (String × String) :=
  (concreteBranches bs).foldl
    (fun d b => setKey d (branchPath b) (leafOf b).name) []

/-- The abstract registry the traversal builds: path of each abstract-leaf
branch mapped to its leaf name, later branches at the same path overwriting
earlier ones (JavaScript object assignment). -/
def abstractsOf (bs : List (List RouteNode)) : List (String × String) :=
  (bs.filter (fun b => (leafOf b).options.abstract)).foldl
    (fun d b => setKey d (branchPath b) (leafOf b).name) []

/-- Spec-side description of the alias phase: one alias per abstract-registry
entry whose path has a truthy duplicate-registry entry, sharing the routes of
the first concrete matcher at that path. -/
def aliasesOf (bs : List (List RouteNode)) : List Matcher :=
  (abstractsOf bs).filterMap (fun pn =>
    if truthy (lookupKey (dupesOf bs) pn.1) then
      ((concreteMatchersOf bs).find? (fun m => m.path == pn.1)).map
        (fun m => (⟨m.routes, pn.2, pn.1⟩ : Matcher))
    else none)

/-- Spec-side description of a successful `map()` run: the concrete matchers
in traversal order followed by the abstract aliases. -/
def specMapC6 (tree : RouteList) : List Matcher :=
  concreteMatchersOf (branches tree []) ++ aliasesOf (branches tree [])

/-- The first duplicate-path collision the branch loop runs into, together
with the two names the thrown error reports: walk the branches keeping the
duplicate registry; a concrete branch whose path is registered with a truthy
name stops the walk. -/
def firstDupe (d : List (String × String)) :
    List (List RouteNode) → Option (String × String × String)
  | [] => none
  | b :: bs =>
      if (leafOf b).options.abstract then firstDupe d bs
      else
        let p := branchPath b
        match lookupKey d p with
        | some prev =>
            if prev == "" then firstDupe (setKey d p (leafOf b).name) bs
            else some (prev, (leafOf b).name, p)
        | none => firstDupe (setKey d p (leafOf b).name) bs

/-! ## Match result, transitions, the router and `dispatch`
(router.js lines 294–381) -/

/-- The per-route descriptor built by `match` (router.js lines 320–327): the
route's own name and path, the global params sliced down to the names the
route's own pattern declares, and a clone of the route's options. -/
structure RouteDescriptor where
  name : String
  path : String
  params : List (String × String)
  options : RouteOptions

/-- `descriptor` of router.js line 320 applied to one route of the matched
branch. -/
def descriptor (params : List (String × String)) (route : RouteNode) :
    RouteDescriptor :=
  ⟨route.name, route.path, pick params (extractParamNames route.path),
   route.options⟩

/-- The match result of `Cherrytree.prototype.match` (router.js
lines 307–312). -/
structure MatchResult where
  routes : List RouteDescriptor
  params : List (String × String)
  pathname : String
  query : List (String × String)

/-- The `matchers.some` loop of `match` (router.js lines 300–306): the first
matcher, in registration order, whose pattern extracts params from the
pathname, together with those params. -/
def firstMatch : List Matcher → String → Option (Matcher × List (String × String))
  | [], _ => none
  | m :: ms, pathname =>
      match extractParams m.path pathname with
      | some params => some (m, params)
      | none => firstMatch ms pathname

/-- Modelled from the spec: the transition state tags of §4.4
(`transition.js` is not under `src/`). -/
inductive TransitionStatus : Type where
  | pending
  | cancelled
  | redirected
  | completed
  | failed
deriving DecidableEq, Repr

/-- Modelled from the spec: the structured errors of §7 — a message, a type
tag, and for redirects the superseding path (`constants.js` and
`transition.js` are not under `src/`). -/
structure TransitionError where
  message : String
  type : String
  nextPath : Option String
deriving DecidableEq, Repr

/-- Modelled from the spec: the `TransitionRedirected` type tag of §7
(`constants.js` is not under `src/`). -/
def TRANSITION_REDIRECTED : String := "TransitionRedirected"

/-- The structured error built at router.js lines 348–350: message and type
tag are the redirected constant, `nextPath` is the newly dispatched path. -/
def redirectError (path : String) : TransitionError :=
  ⟨TRANSITION_REDIRECTED, TRANSITION_REDIRECTED, some path⟩

/-- Modelled from the spec: a Transition (§3) carries the dispatcher-assigned
monotone id, the target path, the match result's pathname/query/params/routes,
the `noop` flag, and a state tag starting at `pending`
(`transition.js` is not under `src/`). -/
structure Transition where
  id : Nat
  path : String
  pathname : String
  query : List (String × String)
  params : List (String × String)
  routes : List RouteDescriptor
  noop : Bool
  status : TransitionStatus

/-- Modelled from the spec: the transition factory called by `dispatch`
(router.js lines 361–376) — a fresh pending transition over the match data. -/
def mkTransition (id : Nat) (path : String) (m : MatchResult) (noop : Bool) :
    Transition :=
  ⟨id, path, m.pathname, m.query, m.params, m.routes, noop,
   TransitionStatus.pending⟩

/-- Modelled from the spec: `transition.cancel(err)` (§4.4, `transition.js`
not under `src/`) — a pending transition leaves the pending state, becoming
redirected when the structured error carries the redirected tag and cancelled
otherwise. -/
def Transition.cancelWith (t : Transition) (e : TransitionError) : Transition :=
  { t with status :=
      if e.type == TRANSITION_REDIRECTED then TransitionStatus.redirected
      else TransitionStatus.cancelled }

/-- The router's committed state (`this.state`, router.js line 16): all
fields start out absent (`this.state = {}`). -/
structure RouterState where
  path : Option String
  pathname : Option String
  params : Option (List (String × String))
  query : Option (List (String × String))
  routes : Option (List RouteDescriptor)
  activeTransition : Option Transition

/-- The empty committed state (`this.state = {}`). -/
def emptyState : RouterState := ⟨none, none, none, none, none, none⟩

/-- The router object: monotone transition id counter, committed state, the
compiled route tree and matcher list, and the registered middleware (kept
abstract as names). -/
structure Cherrytree where
  nextId : Nat
  state : RouterState
  routes : RouteList
  matchers : List Matcher
  middleware : List String

/-- `Cherrytree.prototype.use` (router.js lines 37–41): append a middleware. -/
def Cherrytree.use (r : Cherrytree) (m : String) : Cherrytree :=
  { r with middleware := r.middleware ++ [m] }

/-- `Cherrytree.prototype.map` (router.js lines 49–126) at the router level:
store the tree and the compiled matchers. -/
def Cherrytree.map (r : Cherrytree) (tree : RouteList) :
    Except String Cherrytree :=
  (mapRoutes tree).map (fun ms => { r with routes := tree, matchers := ms })

/-- Modelled from the spec: which middleware a transition runs — a no-op
transition settles without invoking any registered middleware, every other
transition runs the registered chain in order (§4.4 and glossary;
`transition.js` is not under `src/`). -/
def invokedMiddleware (r : Cherrytree) (t : Transition) : List String :=
  if t.noop then [] else r.middleware

/-- `Cherrytree.prototype.match` (router.js lines 294–328): normalize the
path, find the first matcher that extracts params, and build the match
result; an unmatched path yields empty routes and params with pathname and
query still populated. -/
def Cherrytree.matchPath (r : Cherrytree) (path : String) : MatchResult :=
  match firstMatch r.matchers (withoutQuery (cleanPath path)) with
  | some (m, params) =>
      ⟨m.routes.map (descriptor params), params, withoutQuery (cleanPath path),
       (extractQuery (cleanPath path)).getD []⟩
  | none =>
      ⟨[], [], withoutQuery (cleanPath path),
       (extractQuery (cleanPath path)).getD []⟩

/-- What one `dispatch` call produces: the updated router, the returned
transition, and the previously pending transition it cancelled (with the
structured error used), if any. -/
structure DispatchResult where
  router : Cherrytree
  transition : Transition
  cancelled : Option (Transition × TransitionError)

/-- `Cherrytree.prototype.dispatch` (router.js lines 330–381): an already
pending transition with the same pathname and value-equal query is returned
unchanged; a pending transition with a different target is cancelled with the
redirected error and a fresh transition replaces it; with no pending
transition, a target value-equal to the committed state yields a no-op
transition that is not recorded; otherwise a fresh transition is created and
recorded as the sole active transition. -/
def Cherrytree.dispatch (r : Cherrytree) (path : String) : DispatchResult :=
  match r.state.activeTransition with
  | some act =>
      if act.pathname == (r.matchPath path).pathname &&
         isEqualQ act.query (r.matchPath path).query then
        ⟨r, act, none⟩
      else
        ⟨{ r with
            nextId := r.nextId + 1,
            state := { r.state with
              activeTransition :=
                some (mkTransition r.nextId path (r.matchPath path) false) } },
         mkTransition r.nextId path (r.matchPath path) false,
         some (act.cancelWith (redirectError path), redirectError path)⟩
  | none =>
      if optStrEq r.state.pathname (r.matchPath path).pathname &&
         isEqualOptQ r.state.query (r.matchPath path).query then
        ⟨{ r with nextId := r.nextId + 1 },
         mkTransition r.nextId path (r.matchPath path) true, none⟩
      else
        ⟨{ r with
            nextId := r.nextId + 1,
            state := { r.state with
              activeTransition :=
                some (mkTransition r.nextId path (r.matchPath path) false) } },
         mkTransition r.nextId path (r.matchPath path) false,
         none⟩

/-- `Cherrytree.prototype.isActive` (router.js lines 241–254): the committed
routes contain the name, and for every key of the supplied params and query
maps the committed value is strictly equal to the supplied one. -/
def Cherrytree.isActive (r : Cherrytree) (name : String)
    (params query : List (String × String)) : Bool :=
  (r.state.routes.getD []).any (fun route => route.name == name) &&
  (params.map Prod.fst).all
    (fun k => lookupKey (r.state.params.getD []) k == lookupKey params k) &&
  (query.map Prod.fst).all
    (fun k => lookupKey (r.state.query.getD []) k == lookupKey query k)

/-! ## Concrete fixtures used for witnesses and counterexamples -/

/-- Concrete (non-abstract) route options. -/
def exOpts : RouteOptions := ⟨false⟩

/-- Abstract route options. -/
def exAbs : RouteOptions := ⟨true⟩

/-- Two concrete sibling routes that normalize to the same path `/x`. -/
def exDupTree : RouteList :=
  RouteList.ofList
    [RouteNode.mk "a" "x" exOpts RouteList.nil,
     RouteNode.mk "b" "x" exOpts RouteList.nil]

/-- Two concrete sibling routes at the same path `/x`, the first one with an
empty name. -/
def exEmptyNameTree : RouteList :=
  RouteList.ofList
    [RouteNode.mk "" "x" exOpts RouteList.nil,
     RouteNode.mk "b" "x" exOpts RouteList.nil]

/-- The spec's abstract example: `app` (abstract, path `/`) with index child
`home` (path `/`). -/
def exAbsTree : RouteList :=
  RouteList.ofList
    [RouteNode.mk "app" "/" exAbs
      (RouteList.ofList [RouteNode.mk "home" "/" exOpts RouteList.nil])]

/-- Two abstract routes at the same path `/x` next to a concrete route there. -/
def exTwoAbsTree : RouteList :=
  RouteList.ofList
    [RouteNode.mk "a1" "x" exAbs RouteList.nil,
     RouteNode.mk "a2" "x" exAbs RouteList.nil,
     RouteNode.mk "c" "x" exOpts RouteList.nil]

/-- The branch of the `posts`/`post` example tree. -/
def exPostsBranch : List RouteNode :=
  [RouteNode.mk "posts" "/posts" exOpts
    (RouteList.ofList [RouteNode.mk "post" ":id" exOpts RouteList.nil]),
   RouteNode.mk "post" ":id" exOpts RouteList.nil]

/-- The compiled matcher for `/posts/:id`. -/
def exMatcher : Matcher := ⟨exPostsBranch, "post", "/posts/:id"⟩

/-- A pending transition targeting `/posts/42` with an empty query. -/
def exT1 : Transition :=
  ⟨1, "/posts/42", "/posts/42", [], [("id", "42")], [], false,
   TransitionStatus.pending⟩

/-- A router with `exT1` pending. -/
def exR1 : Cherrytree :=
  ⟨2, { emptyState with activeTransition := some exT1 }, RouteList.nil,
   [exMatcher], []⟩

/-- A router with no pending transition whose committed state is
`/posts/42` with an empty query. -/
def exR2 : Cherrytree :=
  ⟨5,
   ⟨some "/posts/42", some "/posts/42", some [("id", "42")], some [],
    some [], none⟩,
   RouteList.nil, [exMatcher], ["mw1"]⟩

/-- Non-capturing matcher at `/a`. -/
def exMA : Matcher := ⟨[], "a", "/a"⟩

/-- Capturing matcher at `/:x`. -/
def exMX : Matcher := ⟨[], "x", "/:x"⟩

/-- Non-capturing matcher at `/b`, declared after `exMX`. -/
def exMB : Matcher := ⟨[], "b", "/b"⟩

/-- A fresh router with matchers `exMA`, `exMX`, `exMB` in that order. -/
def exR3 : Cherrytree := ⟨1, emptyState, RouteList.nil, [exMA, exMX, exMB], []⟩

/-- A fresh router whose only matcher is `/posts/:id`. -/
def exR4 : Cherrytree := ⟨1, emptyState, RouteList.nil, [exMatcher], []⟩

/-! ## Helper lemmas -/

theorem lookupKey_isSome_iff (l : List (String × String)) (k : String) :
    (lookupKey l k).isSome = true ↔ k ∈ l.map Prod.fst := by
  induction l with
  | nil => simp [lookupKey]
  | cons p rest ih =>
      by_cases h : p.1 = k
      · simp [lookupKey, h]
      · have hstep : lookupKey (p :: rest) k = lookupKey rest k := by
          simp [lookupKey, h]
        rw [hstep, ih]
        simp only [List.map_cons, List.mem_cons]
        constructor
        · exact Or.inr
        · rintro (rfl | hm)
          · exact absurd rfl h
          · exact hm

theorem mem_keys_of_lookupKey_eq_some {l : List (String × String)}
    {k v : String} (h : lookupKey l k = some v) : k ∈ l.map Prod.fst := by
  rw [← lookupKey_isSome_iff]
  simp [h]

theorem isEqualQ_refl (q : List (String × String)) : isEqualQ q q = true := by
  simp [isEqualQ, qsubset]

theorem firstMatch_append (pre : List Matcher) (m : Matcher)
    (post : List Matcher) (pathname : String) (ps : List (String × String))
    (hpre : ∀ m1 ∈ pre, extractParams m1.path pathname = none)
    (hm : extractParams m.path pathname = some ps) :
    firstMatch (pre ++ m :: post) pathname = some (m, ps) := by
  induction pre with
  | nil => simp [firstMatch, hm]
  | cons m0 rest ih =>
      have h0 : extractParams m0.path pathname = none :=
        hpre m0 (List.mem_cons_self _ _)
      have hrest : ∀ m1 ∈ rest, extractParams m1.path pathname = none :=
        fun m1 hm1 => hpre m1 (List.mem_cons_of_mem _ hm1)
      simpa [firstMatch, h0] using ih hrest

theorem firstMatch_none (ms : List Matcher) (pathname : String)
    (h : ∀ m ∈ ms, extractParams m.path pathname = none) :
    firstMatch ms pathname = none := by
  induction ms with
  | nil => rfl
  | cons m rest ih =>
      have h0 : extractParams m.path pathname = none :=
        h m (List.mem_cons_self _ _)
      have hrest : ∀ m1 ∈ rest, extractParams m1.path pathname = none :=
        fun m1 hm1 => h m1 (List.mem_cons_of_mem _ hm1)
      simp [firstMatch, h0, ih hrest]

theorem subset_keys_iff (a b : List (String × String)) :
    (∀ k ∈ a.map Prod.fst, lookupKey b k = lookupKey a k) ↔
      (∀ k v, lookupKey a k = some v → lookupKey b k = some v) := by
  constructor
  · intro h k v hv
    have hk : k ∈ a.map Prod.fst := mem_keys_of_lookupKey_eq_some hv
    rw [h k hk, hv]
  · intro h k hk
    have hs : (lookupKey a k).isSome = true := (lookupKey_isSome_iff a k).mpr hk
    obtain ⟨v, hv⟩ := Option.isSome_iff_exists.mp hs
    rw [hv, h k v hv]

/-- The no-op branch of `dispatch` (router.js lines 358–369): the noop
transition is returned with only `nextId` advanced. -/
theorem dispatch_noop_eq (r : Cherrytree) (path : String)
    (hact : r.state.activeTransition = none)
    (hp : optStrEq r.state.pathname (r.matchPath path).pathname = true)
    (hq : isEqualOptQ r.state.query (r.matchPath path).query = true) :
    r.dispatch path =
      ⟨{ r with nextId := r.nextId + 1 },
       mkTransition r.nextId path (r.matchPath path) true, none⟩ := by
  unfold Cherrytree.dispatch
  simp only [hact]
  simp [hp, hq]

/-! ## Claim theorems -/

/-- C1: for a router with a pending active transition, dispatching a path
whose resolved pathname equals the pending transition's and whose query is
value-equal to it returns that very pending transition, creates no new
transition and leaves the router (state and id counter) unchanged. -/
theorem C1_redispatch_returns_pending (r : Cherrytree) (t : Transition)
    (path : String) (hact : r.state.activeTransition = some t)
    (hp : t.pathname = (r.matchPath path).pathname)
    (hq : isEqualQ t.query (r.matchPath path).query = true) :
    r.dispatch path = ⟨r, t, none⟩ := by
  unfold Cherrytree.dispatch
  simp only [hact]
  simp [hp, hq]

/-- Witness for C1 at a concrete router with `exT1` pending. -/
theorem C1_redispatch_returns_pending_witness :
    exR1.dispatch "/posts/42" = ⟨exR1, exT1, none⟩ :=
  C1_redispatch_returns_pending exR1 exT1 "/posts/42" rfl (by decide)
    (by decide)

/-- C2: dispatching a target whose pathname or query differs from the pending
transition's cancels it with a structured error carrying the redirected type
tag and the new path in `nextPath`, and records a fresh pending transition as
the router's sole active transition. -/
theorem C2_redirect_cancels_pending (r : Cherrytree) (t : Transition)
    (path : String) (hact : r.state.activeTransition = some t)
    (hdiff : t.pathname ≠ (r.matchPath path).pathname ∨
      isEqualQ t.query (r.matchPath path).query = false) :
    r.dispatch path =
      ⟨{ r with
          nextId := r.nextId + 1,
          state := { r.state with
            activeTransition :=
              some (mkTransition r.nextId path (r.matchPath path) false) } },
       mkTransition r.nextId path (r.matchPath path) false,
       some ({ t with status := TransitionStatus.redirected },
             redirectError path)⟩ ∧
    (redirectError path).type = TRANSITION_REDIRECTED ∧
    (redirectError path).nextPath = some path ∧
    (mkTransition r.nextId path (r.matchPath path) false).status =
      TransitionStatus.pending ∧
    (r.dispatch path).router.state.activeTransition =
      some ((r.dispatch path).transition) := by
  have hcond : (t.pathname == (r.matchPath path).pathname &&
      isEqualQ t.query (r.matchPath path).query) = false := by
    rcases hdiff with h | h
    · simp [h]
    · simp [h]
  have heq : r.dispatch path =
      ⟨{ r with
          nextId := r.nextId + 1,
          state := { r.state with
            activeTransition :=
              some (mkTransition r.nextId path (r.matchPath path) false) } },
       mkTransition r.nextId path (r.matchPath path) false,
       some ({ t with status := TransitionStatus.redirected },
             redirectError path)⟩ := by
    unfold Cherrytree.dispatch
    simp only [hact]
    simp [hcond, Transition.cancelWith, redirectError, TRANSITION_REDIRECTED]
  refine ⟨heq, rfl, rfl, rfl, ?_⟩
  rw [heq]

/-- Witness for C2: dispatching `/posts/7` over pending `/posts/42`. -/
theorem C2_redirect_cancels_pending_witness :
    (exR1.dispatch "/posts/7").cancelled =
      some ({ exT1 with status := TransitionStatus.redirected },
            redirectError "/posts/7") := by
  rw [(C2_redirect_cancels_pending exR1 exT1 "/posts/7" rfl
    (Or.inl (by decide))).1]

/-- C3: with no pending transition, dispatching a target value-equal to the
committed state returns a transition with the noop flag set that still
carries the resolved match data (routes, params, query, pathname) and
invokes no middleware. -/
theorem C3_noop_transition (r : Cherrytree) (path : String)
    (hact : r.state.activeTransition = none)
    (hp : optStrEq r.state.pathname (r.matchPath path).pathname = true)
    (hq : isEqualOptQ r.state.query (r.matchPath path).query = true) :
    r.dispatch path =
      ⟨{ r with nextId := r.nextId + 1 },
       mkTransition r.nextId path (r.matchPath path) true, none⟩ ∧
    (r.dispatch path).transition.noop = true ∧
    (r.dispatch path).transition.pathname = (r.matchPath path).pathname ∧
    (r.dispatch path).transition.query = (r.matchPath path).query ∧
    (r.dispatch path).transition.params = (r.matchPath path).params ∧
    (r.dispatch path).transition.routes = (r.matchPath path).routes ∧
    invokedMiddleware r ((r.dispatch path).transition) = [] := by
  have heq := dispatch_noop_eq r path hact hp hq
  rw [heq]
  exact ⟨rfl, rfl, rfl, rfl, rfl, rfl, rfl⟩

/-- Witness for C3: re-dispatching the committed `/posts/42` on `exR2`. -/
theorem C3_noop_transition_witness :
    (exR2.dispatch "/posts/42").transition.noop = true ∧
    invokedMiddleware exR2 ((exR2.dispatch "/posts/42").transition) = [] := by
  have h := C3_noop_transition exR2 "/posts/42" rfl (by decide) (by decide)
  exact ⟨h.2.1, h.2.2.2.2.2.2⟩

/-- C4: the normalized path `map()` computes for a branch is the left-to-right
fold in which a segment with a leading `/` replaces the accumulated path, any
other segment is appended with a single `/` separator, a trailing `/` is
stripped after each step, and an empty final result becomes `/`. -/
theorem C4_branch_path_is_spec_fold (b : List RouteNode) :
    branchPath b = specFoldC4 (b.map RouteNode.path) := by
  unfold branchPath specFoldC4
  rw [List.foldl_map]
  rfl

/-- C7: `match` selects the first matcher in registration order whose pattern
matches the pathname, and matchers registered after it are never consulted
(the result does not depend on them). -/
theorem C7_first_match_wins (r : Cherrytree) (pre post : List Matcher)
    (m : Matcher) (path : String) (ps : List (String × String))
    (hms : r.matchers = pre ++ m :: post)
    (hpre : ∀ m1 ∈ pre,
      extractParams m1.path (withoutQuery (cleanPath path)) = none)
    (hm : extractParams m.path (withoutQuery (cleanPath path)) = some ps) :
    r.matchPath path =
      ⟨m.routes.map (descriptor ps), ps, withoutQuery (cleanPath path),
       (extractQuery (cleanPath path)).getD []⟩ ∧
    ∀ post2 : List Matcher,
      Cherrytree.matchPath { r with matchers := pre ++ m :: post2 } path =
        r.matchPath path := by
  have hfm : ∀ post1 : List Matcher,
      firstMatch (pre ++ m :: post1) (withoutQuery (cleanPath path)) =
        some (m, ps) :=
    fun post1 => firstMatch_append pre m post1 _ ps hpre hm
  have hbase : r.matchPath path =
      ⟨m.routes.map (descriptor ps), ps, withoutQuery (cleanPath path),
       (extractQuery (cleanPath path)).getD []⟩ := by
    unfold Cherrytree.matchPath
    simp only [hms]
    rw [hfm post]
  refine ⟨hbase, fun post2 => ?_⟩
  rw [hbase]
  unfold Cherrytree.matchPath
  simp only []
  rw [hfm post2]

/-- Witness for C7: on matchers `/a`, `/:x`, `/b`, the path `/b` is taken by
the earlier capture matcher `/:x`, not by the later literal `/b`. -/
theorem C7_first_match_wins_witness :
    exR3.matchPath "/b" = ⟨[], [("x", "b")], "/b", []⟩ := by
  have h := C7_first_match_wins exR3 [exMA] [exMB] exMX "/b" [("x", "b")]
    rfl (by decide) (by decide)
  exact h.1

/-- C8: `isActive(name, params, query)` is true exactly when the committed
routes contain the name and every supplied params/query entry is matched by a
strictly equal committed entry (subset match). -/
theorem C8_isActive_iff (r : Cherrytree) (name : String)
    (params query : List (String × String)) :
    r.isActive name params query = true ↔
      ((∃ route ∈ r.state.routes.getD [], route.name = name) ∧
       (∀ k v, lookupKey params k = some v →
         lookupKey (r.state.params.getD []) k = some v) ∧
       (∀ k v, lookupKey query k = some v →
         lookupKey (r.state.query.getD []) k = some v)) := by
  unfold Cherrytree.isActive
  simp only [Bool.and_eq_true, List.any_eq_true, List.all_eq_true,
    beq_iff_eq]
  rw [subset_keys_iff params (r.state.params.getD []),
    subset_keys_iff query (r.state.query.getD [])]
  tauto

/-- C9: `match` never fails — on a path no matcher matches it still returns a
result with empty routes and params but populated pathname (trailing slash
trimmed, empty normalized to `/`) and decoded query, and `dispatch` on such a
path still produces a transition carrying that pathname and query. -/
theorem C9_unmatched_still_matches (r : Cherrytree) (path : String)
    (h : ∀ m ∈ r.matchers,
      extractParams m.path (withoutQuery (cleanPath path)) = none) :
    r.matchPath path =
      ⟨[], [], withoutQuery (cleanPath path),
       (extractQuery (cleanPath path)).getD []⟩ ∧
    (r.dispatch path).transition.pathname = withoutQuery (cleanPath path) ∧
    isEqualQ ((r.dispatch path).transition.query)
      ((extractQuery (cleanPath path)).getD []) = true := by
  have hmp : r.matchPath path =
      ⟨[], [], withoutQuery (cleanPath path),
       (extractQuery (cleanPath path)).getD []⟩ := by
    unfold Cherrytree.matchPath
    rw [firstMatch_none _ _ h]
  have key : (r.dispatch path).transition.pathname =
      (r.matchPath path).pathname ∧
      isEqualQ ((r.dispatch path).transition.query)
        ((r.matchPath path).query) = true := by
    unfold Cherrytree.dispatch
    cases hact : r.state.activeTransition with
    | none =>
        cases hcond : (optStrEq r.state.pathname (r.matchPath path).pathname
            && isEqualOptQ r.state.query (r.matchPath path).query) with
        | true => simp [hcond, mkTransition, isEqualQ_refl]
        | false => simp [hcond, mkTransition, isEqualQ_refl]
    | some act =>
        cases hcond : (act.pathname == (r.matchPath path).pathname
            && isEqualQ act.query (r.matchPath path).query) with
        | true =>
            have hparts := Bool.and_eq_true .. |>.mp hcond
            have hpn : act.pathname = (r.matchPath path).pathname :=
              beq_iff_eq .. |>.mp hparts.1
            simp [hcond, hpn, hparts.2]
        | false => simp [hcond, mkTransition, isEqualQ_refl]
  rw [hmp] at key
  exact ⟨hmp, key⟩

/-- Witness for C9: `/nope?q=1` matches nothing on `exR4` yet resolves. -/
theorem C9_unmatched_still_matches_witness :
    exR4.matchPath "/nope?q=1" = ⟨[], [], "/nope", [("q", "1")]⟩ := by
  have h := C9_unmatched_still_matches exR4 "/nope?q=1" (by decide)
  exact h.1

/-- C10: a no-op dispatch (no pending transition, target value-equal to the
committed state) leaves the whole committed state, in particular the
active-transition slot, unchanged. -/
theorem C10_noop_dispatch_frame (r : Cherrytree) (path : String)
    (hact : r.state.activeTransition = none)
    (hp : optStrEq r.state.pathname (r.matchPath path).pathname = true)
    (hq : isEqualOptQ r.state.query (r.matchPath path).query = true) :
    (r.dispatch path).router.state = r.state ∧
    (r.dispatch path).router.state.activeTransition = none ∧
    (r.dispatch path).transition.noop = true := by
  rw [dispatch_noop_eq r path hact hp hq]
  exact ⟨rfl, hact, rfl⟩

/-- Witness for C10 on `exR2`. -/
theorem C10_noop_dispatch_frame_witness :
    (exR2.dispatch "/posts/42").router.state = exR2.state :=
  (C10_noop_dispatch_frame exR2 "/posts/42" rfl (by decide) (by decide)).1

/-! ## Lemmas about the `map()` compiler -/

theorem lookupKey_setKey (d : List (String × String)) (k v k2 : String) :
    lookupKey (setKey d k v) k2 =
      if k2 = k then some v else lookupKey d k2 := by
  induction d with
  | nil =>
      by_cases h : k2 = k
      · simp [setKey, lookupKey, h]
      · have h2 : ¬ k = k2 := fun hh => h hh.symm
        simp [setKey, lookupKey, h, h2]
  | cons q rest ih =>
      by_cases h0 : q.1 = k
      · by_cases h2 : k2 = k
        · simp [setKey, lookupKey, h0, h2]
        · have hk2 : ¬ k = k2 := fun hh => h2 hh.symm
          have hq2 : ¬ q.1 = k2 := by rw [h0]; exact hk2
          simp [setKey, lookupKey, h0, h2, hk2, hq2]
      · by_cases h2 : q.1 = k2
        · have hk2 : ¬ k2 = k := by rw [← h2]; exact fun hh => h0 hh
          simp [setKey, lookupKey, h0, h2, hk2]
        · simp [setKey, lookupKey, h0, h2, ih]

theorem branches_ne_nil (l : RouteList) (memo : List RouteNode) :
    ∀ b ∈ branches l memo, b ≠ [] := by
  induction l, memo using branches.induct with
  | case1 memo =>
      intro b hb
      simp [branches] at hb
  | case2 n p o rs rest memo ih1 ih2 =>
      intro b hb
      simp only [branches, List.mem_cons, List.mem_append] at hb
      rcases hb with rfl | hb | hb
      · simp
      · exact ih1 b hb
      · exact ih2 b hb

theorem getLast?_of_ne_nil {b : List RouteNode} (h : b ≠ []) :
    b.getLast? = some (leafOf b) := by
  simp [leafOf, List.getLast?_eq_getLast b h]

theorem mapStep_abstract (s : MapState) {b : List RouteNode} (hne : b ≠ [])
    (habs : (leafOf b).options.abstract = true) :
    mapStep s b = Except.ok
      { s with abstracts := setKey s.abstracts (branchPath b) (leafOf b).name } := by
  unfold mapStep
  rw [getLast?_of_ne_nil hne]
  simp [habs]

theorem mapStep_concrete_fresh (s : MapState) {b : List RouteNode}
    (hne : b ≠ []) (habs : (leafOf b).options.abstract = false)
    (hfresh : lookupKey s.dupes (branchPath b) = none) :
    mapStep s b = Except.ok
      ⟨s.matchers ++ [branchMatcher b],
       setKey s.dupes (branchPath b) (leafOf b).name, s.abstracts⟩ := by
  unfold mapStep
  rw [getLast?_of_ne_nil hne]
  simp [habs, hfresh, branchMatcher]

theorem concreteBranches_cons_abstract {b : List RouteNode}
    (bs : List (List RouteNode)) (habs : (leafOf b).options.abstract = true) :
    concreteBranches (b :: bs) = concreteBranches bs := by
  simp [concreteBranches, habs]

theorem concreteBranches_cons_concrete {b : List RouteNode}
    (bs : List (List RouteNode)) (habs : (leafOf b).options.abstract = false) :
    concreteBranches (b :: bs) = b :: concreteBranches bs := by
  simp [concreteBranches, habs]

theorem mapLoop_ok (bs : List (List RouteNode)) (s : MapState)
    (hne : ∀ b ∈ bs, b ≠ [])
    (hnodup : ((concreteBranches bs).map branchPath).Nodup)
    (hfresh : ∀ b ∈ concreteBranches bs,
      lookupKey s.dupes (branchPath b) = none) :
    mapLoop s bs = Except.ok
      ⟨s.matchers ++ concreteMatchersOf bs,
       (concreteBranches bs).foldl
         (fun d b => setKey d (branchPath b) (leafOf b).name) s.dupes,
       (bs.filter (fun b => (leafOf b).options.abstract)).foldl
         (fun d b => setKey d (branchPath b) (leafOf b).name) s.abstracts⟩ := by
  induction bs generalizing s with
  | nil => simp [mapLoop, concreteMatchersOf, concreteBranches]
  | cons b bs ih =>
      have hbne : b ≠ [] := hne b (List.mem_cons_self _ _)
      have hnetail : ∀ b1 ∈ bs, b1 ≠ [] :=
        fun b1 h1 => hne b1 (List.mem_cons_of_mem _ h1)
      cases habs : (leafOf b).options.abstract with
      | true =>
          have hcb := concreteBranches_cons_abstract bs habs
          rw [hcb] at hnodup hfresh
          have hstep := mapStep_abstract s hbne habs
          have hloop := ih
            { s with abstracts := setKey s.abstracts (branchPath b) (leafOf b).name }
            hnetail hnodup hfresh
          simp only [mapLoop, hstep, hloop]
          simp [hcb, concreteMatchersOf, List.filter_cons, habs]
      | false =>
          have hcb := concreteBranches_cons_concrete bs habs
          rw [hcb] at hnodup hfresh
          have hfb : lookupKey s.dupes (branchPath b) = none :=
            hfresh b (List.mem_cons_self _ _)
          have hstep := mapStep_concrete_fresh s hbne habs hfb
          have hnodup2 : ((concreteBranches bs).map branchPath).Nodup :=
            (List.nodup_cons.mp (by simpa using hnodup)).2
          have hnotmem : branchPath b ∉ (concreteBranches bs).map branchPath :=
            (List.nodup_cons.mp (by simpa using hnodup)).1
          have hfresh2 : ∀ b1 ∈ concreteBranches bs,
              lookupKey (setKey s.dupes (branchPath b) (leafOf b).name)
                (branchPath b1) = none := by
            intro b1 h1
            rw [lookupKey_setKey]
            have hne1 : ¬ branchPath b1 = branchPath b := by
              intro hEq
              exact hnotmem (hEq ▸ List.mem_map_of_mem branchPath h1)
            rw [if_neg hne1]
            exact hfresh b1 (List.mem_cons_of_mem _ h1)
          have hloop := ih
            ⟨s.matchers ++ [branchMatcher b],
             setKey s.dupes (branchPath b) (leafOf b).name, s.abstracts⟩
            hnetail hnodup2 hfresh2
          simp only [mapLoop, hstep, hloop]
          simp [hcb, concreteMatchersOf, List.filter_cons, habs,
            List.append_assoc]

theorem aliasLoop_ok (abstractList : List (String × String))
    (matchers extra : List Matcher) (dupes : List (String × String))
    (hfind : ∀ pn ∈ abstractList, truthy (lookupKey dupes pn.1) = true →
      (matchers.find? (fun m => m.path == pn.1)).isSome = true) :
    aliasLoop (matchers ++ extra) dupes abstractList =
      Except.ok ((matchers ++ extra) ++ abstractList.filterMap (fun pn =>
        if truthy (lookupKey dupes pn.1) then
          (matchers.find? (fun m => m.path == pn.1)).map
            (fun m => (⟨m.routes, pn.2, pn.1⟩ : Matcher))
        else none)) := by
  induction abstractList generalizing extra with
  | nil => simp [aliasLoop]
  | cons pn rest ih =>
      obtain ⟨p, n⟩ := pn
      have hrest : ∀ pn1 ∈ rest, truthy (lookupKey dupes pn1.1) = true →
          (matchers.find? (fun m => m.path == pn1.1)).isSome = true :=
        fun pn1 h1 => hfind pn1 (List.mem_cons_of_mem _ h1)
      cases ht : truthy (lookupKey dupes p) with
      | false =>
          simp only [aliasLoop, ht]
          simp [ht, ih extra hrest]
      | true =>
          have hs := hfind (p, n) (List.mem_cons_self _ _) ht
          obtain ⟨m, hm⟩ := Option.isSome_iff_exists.mp hs
          have happ : (matchers ++ extra).find? (fun m1 => m1.path == p) =
              some m := by
            rw [List.find?_append, hm]
            rfl
          simp only [aliasLoop, ht, happ, if_true]
          have := ih (extra ++ [(⟨m.routes, n, p⟩ : Matcher)]) hrest
          rw [← List.append_assoc] at this
          rw [this]
          simp [ht, hm, List.append_assoc]

theorem lookup_dupesFold (bs : List (List RouteNode))
    (d : List (String × String)) (p v : String)
    (h : lookupKey (bs.foldl
      (fun d1 b => setKey d1 (branchPath b) (leafOf b).name) d) p = some v) :
    (∃ b ∈ bs, branchPath b = p) ∨ lookupKey d p = some v := by
  induction bs generalizing d with
  | nil => exact Or.inr h
  | cons b rest ih =>
      rw [List.foldl_cons] at h
      rcases ih (setKey d (branchPath b) (leafOf b).name) h with hmem | hd
      · obtain ⟨b1, h1, h2⟩ := hmem
        exact Or.inl ⟨b1, List.mem_cons_of_mem _ h1, h2⟩
      · rw [lookupKey_setKey] at hd
        by_cases hp : p = branchPath b
        · exact Or.inl ⟨b, List.mem_cons_self _ _, hp.symm⟩
        · rw [if_neg hp] at hd
          exact Or.inr hd

theorem mapRoutes_ok_of_distinct (tree : RouteList)
    (hnodup : (concretePaths tree).Nodup) :
    mapRoutes tree = Except.ok (specMapC6 tree) := by
  have hne := branches_ne_nil tree []
  have hnodup2 : ((concreteBranches (branches tree [])).map branchPath).Nodup :=
    hnodup
  have hfresh : ∀ b ∈ concreteBranches (branches tree []),
      lookupKey initMapState.dupes (branchPath b) = none :=
    fun b hb => rfl
  have hloop := mapLoop_ok (branches tree []) initMapState hne hnodup2 hfresh
  have hfind : ∀ pn ∈ abstractsOf (branches tree []),
      truthy (lookupKey (dupesOf (branches tree [])) pn.1) = true →
      ((concreteMatchersOf (branches tree [])).find?
        (fun m => m.path == pn.1)).isSome = true := by
    intro pn hpn ht
    cases hl : lookupKey (dupesOf (branches tree [])) pn.1 with
    | none => rw [hl] at ht; simp [truthy] at ht
    | some v =>
        have hsrc := lookup_dupesFold (concreteBranches (branches tree []))
          [] pn.1 v hl
        rcases hsrc with hmem | hcontra
        · obtain ⟨b, hb, hbp⟩ := hmem
          apply List.find?_isSome.mpr
          refine ⟨branchMatcher b, List.mem_map_of_mem _ hb, ?_⟩
          simp [branchMatcher, hbp]
        · simp [lookupKey] at hcontra
  have halias := aliasLoop_ok (abstractsOf (branches tree []))
    (concreteMatchersOf (branches tree [])) [] (dupesOf (branches tree []))
    hfind
  rw [List.append_nil] at halias
  unfold mapRoutes
  rw [hloop]
  simpa [specMapC6, aliasesOf, dupesOf, abstractsOf, initMapState]
    using halias

theorem mapLoop_error_of_firstDupe (bs : List (List RouteNode)) (s : MapState)
    (n1 n2 p : String) (hfd : firstDupe s.dupes bs = some (n1, n2, p))
    (hne : ∀ b ∈ bs, b ≠ []) :
    mapLoop s bs = Except.error (dupeMsg n1 n2 p) := by
  induction bs generalizing s with
  | nil => simp [firstDupe] at hfd
  | cons b rest ih =>
      have hbne : b ≠ [] := hne b (List.mem_cons_self _ _)
      have hnetail : ∀ b1 ∈ rest, b1 ≠ [] :=
        fun b1 h1 => hne b1 (List.mem_cons_of_mem _ h1)
      cases habs : (leafOf b).options.abstract with
      | true =>
          simp only [firstDupe, habs, if_true] at hfd
          have hstep := mapStep_abstract s hbne habs
          simp only [mapLoop, hstep]
          exact ih _ hfd hnetail
      | false =>
          simp only [firstDupe, habs, Bool.false_eq_true, if_false] at hfd
          cases hl : lookupKey s.dupes (branchPath b) with
          | some prev =>
              simp only [hl] at hfd
              cases hprev : prev == "" with
              | true =>
                  simp only [hprev, if_true] at hfd
                  have hstep : mapStep s b = Except.ok
                      ⟨s.matchers ++ [branchMatcher b],
                       setKey s.dupes (branchPath b) (leafOf b).name,
                       s.abstracts⟩ := by
                    unfold mapStep
                    rw [getLast?_of_ne_nil hbne]
                    simp [habs, hl, hprev, branchMatcher]
                  simp only [mapLoop, hstep]
                  exact ih _ hfd hnetail
              | false =>
                  simp only [hprev, Bool.false_eq_true, if_false,
                    Option.some.injEq, Prod.mk.injEq] at hfd
                  obtain ⟨h1, h2, h3⟩ := hfd
                  have hstep : mapStep s b = Except.error
                      (dupeMsg prev (leafOf b).name (branchPath b)) := by
                    unfold mapStep
                    rw [getLast?_of_ne_nil hbne]
                    simp [habs, hl, hprev]
                  simp only [mapLoop, hstep]
                  rw [h1, h2, h3]
          | none =>
              simp only [hl] at hfd
              have hstep := mapStep_concrete_fresh s hbne habs hl
              simp only [mapLoop, hstep]
              exact ih _ hfd hnetail

theorem firstDupe_names (bs : List (List RouteNode))
    (d : List (String × String)) (n1 n2 p : String)
    (hfd : firstDupe d bs = some (n1, n2, p)) :
    (lookupKey d p = some n1 ∨
      ∃ b1 ∈ concreteBranches bs,
        branchPath b1 = p ∧ (leafOf b1).name = n1) ∧
    (∃ b2 ∈ concreteBranches bs,
      branchPath b2 = p ∧ (leafOf b2).name = n2) := by
  induction bs generalizing d with
  | nil => simp [firstDupe] at hfd
  | cons b rest ih =>
      cases habs : (leafOf b).options.abstract with
      | true =>
          simp only [firstDupe, habs, if_true] at hfd
          rw [concreteBranches_cons_abstract _ habs]
          exact ih d hfd
      | false =>
          rw [concreteBranches_cons_concrete _ habs]
          simp only [firstDupe, habs, Bool.false_eq_true, if_false] at hfd
          cases hl : lookupKey d (branchPath b) with
          | some prev =>
              simp only [hl] at hfd
              cases hprev : prev == "" with
              | true =>
                  simp only [hprev, if_true] at hfd
                  have hres := ih (setKey d (branchPath b) (leafOf b).name) hfd
                  constructor
                  · rcases hres.1 with hlk | hb1
                    · rw [lookupKey_setKey] at hlk
                      by_cases hp : p = branchPath b
                      · rw [if_pos hp] at hlk
                        exact Or.inr ⟨b, List.mem_cons_self _ _, hp.symm,
                          Option.some.inj hlk⟩
                      · rw [if_neg hp] at hlk
                        exact Or.inl hlk
                    · obtain ⟨b1, hm, hx, hy⟩ := hb1
                      exact Or.inr ⟨b1, List.mem_cons_of_mem _ hm, hx, hy⟩
                  · obtain ⟨b2, hm, hx, hy⟩ := hres.2
                    exact ⟨b2, List.mem_cons_of_mem _ hm, hx, hy⟩
              | false =>
                  simp only [hprev, Bool.false_eq_true, if_false,
                    Option.some.injEq, Prod.mk.injEq] at hfd
                  obtain ⟨h1, h2, h3⟩ := hfd
                  constructor
                  · left
                    rw [← h3, hl, h1]
                  · exact ⟨b, List.mem_cons_self _ _, h3, h2⟩
          | none =>
              simp only [hl] at hfd
              have hres := ih (setKey d (branchPath b) (leafOf b).name) hfd
              constructor
              · rcases hres.1 with hlk | hb1
                · rw [lookupKey_setKey] at hlk
                  by_cases hp : p = branchPath b
                  · rw [if_pos hp] at hlk
                    exact Or.inr ⟨b, List.mem_cons_self _ _, hp.symm,
                      Option.some.inj hlk⟩
                  · rw [if_neg hp] at hlk
                    exact Or.inl hlk
                · obtain ⟨b1, hm, hx, hy⟩ := hb1
                  exact Or.inr ⟨b1, List.mem_cons_of_mem _ hm, hx, hy⟩
              · obtain ⟨b2, hm, hx, hy⟩ := hres.2
                exact ⟨b2, List.mem_cons_of_mem _ hm, hx, hy⟩

theorem firstDupe_isSome (bs : List (List RouteNode))
    (d : List (String × String))
    (hd : ∀ p v, lookupKey d p = some v → v ≠ "")
    (hnames : ∀ b ∈ concreteBranches bs, (leafOf b).name ≠ "")
    (hcol : ¬ ((concreteBranches bs).map branchPath).Nodup ∨
      ∃ b ∈ concreteBranches bs, lookupKey d (branchPath b) ≠ none) :
    (firstDupe d bs).isSome = true := by
  induction bs generalizing d with
  | nil =>
      rcases hcol with h | h
      · simp [concreteBranches] at h
      · obtain ⟨b, hb, _⟩ := h
        simp [concreteBranches] at hb
  | cons b rest ih =>
      cases habs : (leafOf b).options.abstract with
      | true =>
          rw [concreteBranches_cons_abstract _ habs] at hnames hcol
          simp only [firstDupe, habs, if_true]
          exact ih d hd hnames hcol
      | false =>
          rw [concreteBranches_cons_concrete _ habs] at hnames hcol
          simp only [firstDupe, habs, Bool.false_eq_true, if_false]
          cases hl : lookupKey d (branchPath b) with
          | some prev =>
              have hpne : prev ≠ "" := hd _ _ hl
              have hprev : (prev == "") = false := by simp [hpne]
              simp [hprev]
          | none =>
              simp only []
              apply ih
              · intro p v hlk
                rw [lookupKey_setKey] at hlk
                by_cases hp : p = branchPath b
                · rw [if_pos hp] at hlk
                  rw [← Option.some.inj hlk]
                  exact hnames b (List.mem_cons_self _ _)
                · rw [if_neg hp] at hlk
                  exact hd _ _ hlk
              · exact fun b1 h1 => hnames b1 (List.mem_cons_of_mem _ h1)
              · rcases hcol with hnd | hex
                · rw [List.map_cons, List.nodup_cons] at hnd
                  rcases not_and_or.mp hnd with hmem | hnodup
                  · have hmem2 := not_not.mp hmem
                    obtain ⟨b2, hb2, hbp2⟩ := List.mem_map.mp hmem2
                    refine Or.inr ⟨b2, hb2, ?_⟩
                    rw [lookupKey_setKey, if_pos hbp2]
                    simp
                  · exact Or.inl hnodup
                · obtain ⟨b2, hb2m, hb2⟩ := hex
                  rcases List.mem_cons.mp hb2m with rfl | hb2m2
                  · exact absurd hl hb2
                  · refine Or.inr ⟨b2, hb2m2, ?_⟩
                    rw [lookupKey_setKey]
                    by_cases hp : branchPath b2 = branchPath b
                    · rw [if_pos hp]
                      simp
                    · rw [if_neg hp]
                      exact hb2

/-- C5 (amended): for a route declaration whose non-abstract leaf names are
all non-empty, two distinct non-abstract branches normalizing to the same
path make `map()` throw the duplicate-path error naming two conflicting route
names, each the leaf name of a non-abstract branch normalizing to that path;
and any declaration with pairwise-distinct normalized non-abstract branch
paths compiles successfully. (As literally stated the claim fails: the
duplicate registry check is a JavaScript truthiness test, so an empty-string
route name on the earlier conflicting branch defeats detection.) -/
theorem C5_duplicate_path_detection (tree : RouteList) :
    ((∀ b ∈ concreteBranches (branches tree []), (leafOf b).name ≠ "") →
      ¬ (concretePaths tree).Nodup →
      ∃ p n1 n2, mapRoutes tree = Except.error (dupeMsg n1 n2 p) ∧
        (∃ b1 ∈ concreteBranches (branches tree []),
          branchPath b1 = p ∧ (leafOf b1).name = n1) ∧
        (∃ b2 ∈ concreteBranches (branches tree []),
          branchPath b2 = p ∧ (leafOf b2).name = n2)) ∧
    ((concretePaths tree).Nodup → ∃ ms, mapRoutes tree = Except.ok ms) := by
  constructor
  · intro hnames hdup
    have hd0 : ∀ p v, lookupKey ([] : List (String × String)) p = some v →
        v ≠ "" := by
      intro p v h
      simp [lookupKey] at h
    have hcol : ¬ ((concreteBranches (branches tree [])).map branchPath).Nodup :=
      hdup
    have hsome := firstDupe_isSome (branches tree []) [] hd0 hnames
      (Or.inl hcol)
    obtain ⟨trip, htrip⟩ := Option.isSome_iff_exists.mp hsome
    obtain ⟨n1, n2, p⟩ := trip
    have herr := mapLoop_error_of_firstDupe (branches tree []) initMapState
      n1 n2 p htrip (branches_ne_nil tree [])
    have hprov := firstDupe_names (branches tree []) [] n1 n2 p htrip
    refine ⟨p, n1, n2, ?_, ?_, hprov.2⟩
    · unfold mapRoutes
      rw [herr]
    · rcases hprov.1 with hl | hb
      · simp [lookupKey] at hl
      · exact hb
  · intro hnodup
    exact ⟨specMapC6 tree, mapRoutes_ok_of_distinct tree hnodup⟩

/-- Counterexample to C5 as stated: in `exEmptyNameTree`, two distinct
non-abstract branches normalize to the same path `/x`, yet `map()` succeeds,
because the earlier branch's leaf name is the empty string and the
registry check `if (dupes[path])` treats it as falsy. -/
theorem C5_counterexample :
    ¬ (concretePaths exEmptyNameTree).Nodup ∧
    (mapRoutes exEmptyNameTree).toOption.isSome = true :=
  ⟨by decide, by decide⟩

/-- Witness for C5: `exDupTree` (duplicate path `/x`, non-empty names) makes
`map()` throw, and `exAbsTree` (distinct concrete paths) compiles. -/
theorem C5_duplicate_path_detection_witness :
    (∃ p n1 n2, mapRoutes exDupTree = Except.error (dupeMsg n1 n2 p) ∧
      (∃ b1 ∈ concreteBranches (branches exDupTree []),
        branchPath b1 = p ∧ (leafOf b1).name = n1) ∧
      (∃ b2 ∈ concreteBranches (branches exDupTree []),
        branchPath b2 = p ∧ (leafOf b2).name = n2)) ∧
    (∃ ms, mapRoutes exAbsTree = Except.ok ms) :=
  ⟨(C5_duplicate_path_detection exDupTree).1 (by decide) (by decide),
   (C5_duplicate_path_detection exAbsTree).2 (by decide)⟩

/-- C6 (amended): a branch whose leaf is abstract registers no concrete
matcher; the traversal records each abstract branch's normalized path in a
last-wins registry (a later abstract branch at the same path overwrites an
earlier one); after the traversal, each registry entry whose path carries a
truthy duplicate-registry entry (a concrete matcher with a non-empty leaf
name at that path) yields exactly one appended alias matcher under the
recorded abstract name sharing the first such concrete matcher's routes, and
entries without one yield nothing: a successful `map()` returns precisely the
concrete matchers followed by these aliases. -/
theorem C6_abstract_alias (tree : RouteList)
    (hnodup : (concretePaths tree).Nodup) :
    mapRoutes tree = Except.ok (specMapC6 tree) :=
  mapRoutes_ok_of_distinct tree hnodup

/-- Counterexample to C6 as stated: in `exTwoAbsTree` the abstract branch
`a1` normalizes to `/x` and a concrete matcher (`c`) is registered at `/x`,
yet the compiled matcher list has no entry named `a1` — only the
later-declared abstract branch `a2` at the same path received the alias. -/
theorem C6_counterexample :
    ((branches exTwoAbsTree []).any (fun b =>
      (leafOf b).options.abstract && ((leafOf b).name == "a1") &&
      (branchPath b == "/x"))) = true ∧
    (((mapRoutes exTwoAbsTree).toOption.getD []).any
      (fun m => (m.name == "c") && (m.path == "/x"))) = true ∧
    (((mapRoutes exTwoAbsTree).toOption.getD []).any
      (fun m => (m.name == "a2") && (m.path == "/x"))) = true ∧
    (((mapRoutes exTwoAbsTree).toOption.getD []).all
      (fun m => m.name != "a1")) = true := by
  refine ⟨by decide, by decide, by decide, by decide⟩

/-- Witness for C6 on the spec's own example: `app` (abstract, `/`) with
index child `home` (`/`) compiles to the `home` matcher at `/` plus an `app`
alias sharing its routes. -/
theorem C6_abstract_alias_witness :
    mapRoutes exAbsTree = Except.ok (specMapC6 exAbsTree) :=
  C6_abstract_alias exAbsTree (by decide)

end Cherry
